import Mathlib

/-!
Shallow embedding of the incremental merge core of the camera-archive updater
(`update_camera_dir_gui.py`, current GUI implementation, and
`update_camera_dir.py`, the earlier command-line script).  Pure data flow is
modelled directly; filesystem state (the per-camera repository of dated
directories and the files inside them) is passed explicitly as association
lists.  Python exceptions (IndexError on `sorted([])[-1]`, KeyError on a
missing dictionary key) are modelled as explicit outcome constructors or
`Option` results.
-/

namespace UpdateCameraDir

/-- One cataloged media file: `(file_full_path, timestamp)` tuple of the
`files_with_times` list, plus the file bytes (needed to state overwrite
properties of the copy step).  Index constants in the source: FILENAME = 0,
TIMESTAMP = 1. -/
structure MediaRecord where
  path : String
  ts : String
  content : String
deriving DecidableEq

/-- Files of one dated repository directory: association list of
(file name, file bytes), in directory-listing order. -/
abbrev DirListing := List (String × String)

/-- A camera repository below `repository_base`: association list of
(dated directory name, its files), in directory-listing order. -/
abbrev Repo := List (String × DirListing)

/-- First-match association-list lookup (filesystem name resolution). -/
def lookupA {α : Type} (k : String) : List (String × α) → Option α
  | [] => none
  | (k', v) :: t => if k' = k then some v else lookupA k t

/-- Lexicographic comparison of character lists by code point, exactly
Python's `<` on strings.  (Defined directly because the core `String.lt`
decision procedure does not reduce in the kernel.) -/
def charListLt : List Char → List Char → Bool
  | [], [] => false
  | [], _ :: _ => true
  | _ :: _, [] => false
  | a :: as, b :: bs =>
    if a.toNat < b.toNat then true
    else if b.toNat < a.toNat then false
    else charListLt as bs

/-- Python string `s < t`. -/
def strLt (s t : String) : Bool := charListLt s.toList t.toList

/-- Python string `s <= t`. -/
def strLe (s t : String) : Bool := !(strLt t s)

/-- Stable ascending insertion by a string key: models inserting into a
Python `sorted(...)` result (ties keep original order). -/
def insertAscBy {α : Type} (key : α → String) (x : α) : List α → List α
  | [] => [x]
  | y :: ys => if strLe (key x) (key y) then x :: y :: ys else y :: insertAscBy key x ys

/-- Stable ascending sort by a string key: models Python `sorted(l)` /
`l.sort()` (Timsort is stable). -/
def sortAscBy {α : Type} (key : α → String) : List α → List α
  | [] => []
  | x :: xs => insertAscBy key x (sortAscBy key xs)

/-- Stable descending insertion by a string key: models inserting into a
Python `sorted(..., reverse=True)` result (equal keys keep original order,
as `reverse=True` does not reverse ties). -/
def insertDescBy {α : Type} (key : α → String) (x : α) : List α → List α
  | [] => [x]
  | y :: ys => if strLe (key y) (key x) then x :: y :: ys else y :: insertDescBy key x ys

/-- Stable descending sort by a string key: models Python
`sorted(l, reverse=True)` / `l.sort(reverse=True, key=...)`. -/
def sortDescBy {α : Type} (key : α → String) : List α → List α
  | [] => []
  | x :: xs => insertDescBy key x (sortDescBy key xs)

/-- Python slice `s[a:b]` on a string (character positions). -/
def strSlice (s : String) (a b : Nat) : String :=
  String.mk ((s.toList.drop a).take (b - a))

/-- Python slice `s[0:n]`. -/
def strTake (n : Nat) (s : String) : String := String.mk (s.toList.take n)

/-- Python `str.split(sep)` for a one-character separator. -/
def splitChar (sep : Char) : List Char → List (List Char)
  | [] => [[]]
  | c :: cs =>
    let r := splitChar sep cs
    if c = sep then [] :: r
    else
      match r with
      | [] => [[c]]
      | h :: t => (c :: h) :: t

/-- `path.split(sep='\\')`: the backslash-separated components of a path. -/
def pathComponents (p : String) : List String :=
  (splitChar '\\' p.toList).map String.mk

/-- Python `str.lower()` on one ASCII character. -/
def lowerChar (c : Char) : Char :=
  if 'A'.toNat ≤ c.toNat ∧ c.toNat ≤ 'Z'.toNat then Char.ofNat (c.toNat + 32) else c

/-- Python `str.lower()` (ASCII range, which covers camera file names). -/
def strToLower (s : String) : String := String.mk (s.toList.map lowerChar)

/-- Membership of a string in a list of names (`in` / `os.path.exists`). -/
def memStr (k : String) : List String → Bool
  | [] => false
  | x :: t => if x = k then true else memStr k t

/-- `exiftime_to_file_prefix` of the source: reformat `YYYY:MM:DD HH:MM:SS`
to `YYYYMMDD-HHMMSS` by direct character-position slicing.  (Renamed here;
the source calls it exiftime_to_file_prefix.) -/
def exiftime_to_file_stamp (e : String) : String :=
  strSlice e 0 4 ++ strSlice e 5 7 ++ strSlice e 8 10 ++ "-" ++
    strSlice e 11 13 ++ strSlice e 14 16 ++ strSlice e 17 19

/-- The conformity test of `find_repository_last_files`:
`bool(re.match("^[0-9_-]*$", test_file[0:15]))` — the first 15 characters
(or all of a shorter name) consist only of digits, underscore and hyphen. -/
def conforming (name : String) : Bool :=
  (name.toList.take 15).all (fun ch => ch.isDigit || ch == '_' || ch == '-')

/-- `sorted(filelist)[-1]` : last element of the ascending sort, `none`
models the IndexError raised on an empty list. -/
def lastSorted (l : List String) : Option String :=
  (sortAscBy id l).getLast?

/-- Directory names listed under `repository_base` (`os.listdir`). -/
def namesOf (repo : Repo) : List String := repo.map Prod.fst

/-- `os.listdir(repository_base + '\\' + d)` with file contents attached. -/
def dirFiles (repo : Repo) (d : String) : DirListing := (lookupA d repo).getD []

/-- File names of one dated directory. -/
def fileNames (repo : Repo) (d : String) : List String := (dirFiles repo d).map Prod.fst

/-- Replace the listing of directory `d` (writing files into it). -/
def setDir (repo : Repo) (d : String) (files : DirListing) : Repo :=
  repo.map (fun p => if p.1 = d then (d, files) else p)

/-- `make_today_dir`: `os.mkdir(new_repository_dir)` unless it already
exists. -/
def ensureToday (repo : Repo) (today : String) : Repo :=
  if memStr today (namesOf repo) then repo else repo ++ [(today, [])]

/-- The run-time fields of one camera dictionary that
`find_repository_last_files` reads and writes. `hasNewRepoDir` models
`'new_repository_dir' in cam`; `todayExists` models
`os.path.exists(cam['new_repository_dir'])` at locator time; `lastFile` and
`lastDir` model the optional dictionary keys `repository_last_file` and
`repository_last_dir` (absent = `none`). -/
structure Cam where
  hasNewRepoDir : Bool
  todayExists : Bool
  repo : Repo
  lastFile : Option String := none
  lastDir : Option String := none
deriving DecidableEq

/-- Exit status of the locator for one camera: `normal` falls through to the
next camera; `early` models the `return` from the whole function on an empty
directory list; `error` models the IndexError from `sorted([])[-1]`. -/
inductive LocExit where
  | normal
  | early
  | error
deriving DecidableEq

/-- The per-directory loop of `find_repository_last_files` (GUI, lines
630-668): skip the first directory when `skip_dir` was set, record
`repository_last_dir`, skip empty directories, filter the file list to
timestamp-conforming names, and take `sorted(filtered_filelist)[-1]`. -/
def camLoop (c : Cam) (skip : Bool) : List String → Cam × LocExit
  | [] => (c, LocExit.normal)
  | d :: ds =>
    if skip then camLoop c false ds
    else
      let fl := fileNames c.repo d
      let c' := { c with lastDir := some (d ++ "\\") }
      if fl.length = 0 then camLoop c' false ds
      else
        match lastSorted (fl.filter conforming) with
        | none => (c', LocExit.error)
        | some f => ({ c' with lastFile := some f }, LocExit.normal)

/-- The per-camera body of `find_repository_last_files` (GUI): sort the
directory list in reverse, return early with the 1970 placeholder name when
there are no dated directories, otherwise run the scan loop with the first
directory skipped when today's target directory already exists. -/
def processCam (c : Cam) : Cam × LocExit :=
  if c.hasNewRepoDir then
    match sortDescBy id (namesOf c.repo) with
    | [] => ({ c with lastFile := some "19700101-010101_placeholder" }, LocExit.early)
    | d :: ds => camLoop c c.todayExists (d :: ds)
  else (c, LocExit.normal)

/-- `find_repository_last_files` over the `camera_info` list: a `return`
(empty directory list) or a raised IndexError stops the whole function,
leaving every later camera untouched. -/
def find_repository_last_files : List Cam → List Cam × LocExit
  | [] => ([], LocExit.normal)
  | c :: cs =>
    let p := processCam c
    match p.2 with
    | LocExit.normal =>
      let r := find_repository_last_files cs
      (p.1 :: r.1, r.2)
    | LocExit.early => (p.1 :: cs, LocExit.early)
    | LocExit.error => (p.1 :: cs, LocExit.error)

/-- `os.path.split(path)[1]` for a backslash path: the base file name. -/
def baseName (p : String) : String := (pathComponents p).getLastD ""

/-- The destination name of the copy step:
`(file_and_time[TIMESTAMP] + '_' + base_filename).lower()`. -/
def destName (r : MediaRecord) : String := strToLower (r.ts ++ "_" ++ baseName r.path)

/-- One action of the copy loop reported to the log. -/
inductive MergeEvent where
  | copied (src dst : String)
  | skipExists (dst : String)
deriving DecidableEq

/-- One iteration of the GUI copy loop (`copy_and_rename`, lines 702-739):
records newer than the frontier are copied under the timestamp-prefixed
name unless the destination already exists, in which case the copy is
skipped; records at or below the frontier produce no action. -/
def guiCopyStep (frontier : String) (st : DirListing) (r : MediaRecord) :
    DirListing × Option MergeEvent :=
  if strLt frontier r.ts then
    let dst := destName r
    match lookupA dst st with
    | some _ => (st, some (MergeEvent.skipExists dst))
    | none => (st ++ [(dst, r.content)], some (MergeEvent.copied r.path dst))
  else (st, none)

/-- The GUI copy loop over the whole batch: unlike the command-line script
it has no `break`, so every record is checked individually. -/
def guiCopyLoop (frontier : String) (st : DirListing) :
    List MediaRecord → DirListing × List MergeEvent
  | [] => (st, [])
  | r :: rs =>
    let p := guiCopyStep frontier st r
    let q := guiCopyLoop frontier p.1 rs
    (q.1, (match p.2 with | some ev => [ev] | none => []) ++ q.2)

/-- `copy_and_rename` for one camera: the frontier timestamp is
`cam['repository_last_file'][0:15]`. -/
def copy_and_rename (lastFile : String) (st : DirListing) (batch : List MediaRecord) :
    DirListing × List MergeEvent :=
  guiCopyLoop (strTake 15 lastFile) st batch

/-- `shutil.copy2` to a possibly existing path: create or silently replace
the destination file's bytes. -/
def insertOver (k v : String) : DirListing → DirListing
  | [] => [(k, v)]
  | (k', v') :: t => if k' = k then (k, v) :: t else (k', v') :: insertOver k v t

/-- The copy loop of the command-line script `update_camera_dir.py`
(lines 322-333): `break` on the first record at or below the frontier, no
destination-existence check before `shutil.copy2`. -/
def cliCopyLoop (frontier : String) (st : DirListing) :
    List MediaRecord → DirListing × List MergeEvent
  | [] => (st, [])
  | r :: rs =>
    if strLt frontier r.ts then
      let q := cliCopyLoop frontier (insertOver (destName r) r.content st) rs
      (q.1, MergeEvent.copied r.path (destName r) :: q.2)
    else (st, [])

/-- A camera repository as the command-line script sees it (file names
only). -/
abbrev CliRepo := List (String × List String)

/-- The frontier loop of the command-line script (lines 297-306): no skip
of today's directory, no conformity filtering; the last file of the first
non-empty directory in reverse-sorted order, as `sorted(filelist)[-1]`. -/
def cliScan (repo : CliRepo) : List String → Option (String × String)
  | [] => none
  | d :: ds =>
    let fl := (lookupA d repo).getD []
    if fl.length = 0 then cliScan repo ds
    else some (d, (sortAscBy id fl).getLastD "")

/-- The command-line script's frontier locator over the sorted directory
list, returning the directory and file chosen. -/
def cliFindLastFile (repo : CliRepo) : Option (String × String) :=
  cliScan repo (sortDescBy id (repo.map Prod.fst))

/-- A filesystem creation time (`os.path.getctime` result, broken into
calendar fields as `datetime.fromtimestamp` yields them). -/
structure FsTime where
  year : Nat
  month : Nat
  day : Nat
  hour : Nat
  minute : Nat
  second : Nat
deriving DecidableEq

/-- Zero-padding to two digits (strftime `%m`, `%d`, `%H`, `%M`, `%S`). -/
def pad2 (n : Nat) : String := if n < 10 then "0" ++ toString n else toString n

/-- Zero-padding to four digits (strftime `%Y`, 4-digit year with century). -/
def pad4 (n : Nat) : String :=
  if n < 10 then "000" ++ toString n
  else if n < 100 then "00" ++ toString n
  else if n < 1000 then "0" ++ toString n
  else toString n

/-- `datetime.fromtimestamp(...).strftime('%Y%m%d-%H%M%S')`: 4-digit year,
24-hour clock. -/
def strftimeYmdHMS (t : FsTime) : String :=
  pad4 t.year ++ pad2 t.month ++ pad2 t.day ++ "-" ++
    pad2 t.hour ++ pad2 t.minute ++ pad2 t.second

/-- One file as seen by the cataloging pass of `get_cam_cards_info`:
its full path, its extension (`os.path.splitext(file)[EXTENSION]`), the
embedded `EXIF DateTimeOriginal` tag when present, and the filesystem
creation time. -/
structure SourceFile where
  path : String
  ext : String
  exifDateTimeOriginal : Option String
  created : FsTime
deriving DecidableEq

/-- `my_camera_data.PICTURE_EXTENSIONS`. -/
def PICTURE_EXTENSIONS : List String :=
  [".jpg", ".JPG", ".nef", ".NEF", ".nrw", ".NRW", ".tif", ".TIF"]

/-- The per-file timestamp extraction of `get_cam_cards_info` (GUI, lines
521-551): picture files use the EXIF tag and are dropped (only
`print('no exif? ...')`) when the tag is absent; all other files fall back
to the formatted filesystem creation time.  `none` = no record appended. -/
def catalogFile (f : SourceFile) : Option (String × String) :=
  if f.ext ∈ PICTURE_EXTENSIONS then
    match f.exifDateTimeOriginal with
    | some e => some (f.path, exiftime_to_file_stamp e)
    | none => none
  else some (f.path, strftimeYmdHMS f.created)

/-- The GUI sort key (line 565):
`element[TIMESTAMP] + element[FILENAME].split(sep='\\')[3]` — the timestamp
concatenated with the fourth backslash-separated path component. -/
def guiSortKey (r : MediaRecord) : String :=
  r.ts ++ (pathComponents r.path).getD 3 ""

/-- The GUI batch ordering: `files_with_times.sort(reverse=True, key=...)`. -/
def sortFilesWithTimes (batch : List MediaRecord) : List MediaRecord :=
  sortDescBy guiSortKey batch

/-- The composite key the specification describes: capture timestamp
followed by the original base file name (timestamps are fixed-width, so
string concatenation orders like the pair). Stated from the spec's words
for comparison with `guiSortKey`. -/
def specCompositeKey (r : MediaRecord) : String := r.ts ++ baseName r.path

/-- The command-line script's sort key (line 269): the timestamp alone. -/
def cliSortKey (r : MediaRecord) : String := r.ts

/-- Initial per-camera state for one full run: `new_repository_dir` is set,
and today's directory exists iff the repository already lists it. -/
def initCam (today : String) (repo : Repo) : Cam :=
  { hasNewRepoDir := true
    todayExists := memStr today (namesOf repo)
    repo := repo }

/-- One full GUI run for one camera against one batch: locate the frontier
(before today's directory is created, as `getcard_clicked` does), create
today's directory (`make_today_dir`), then run `copy_and_rename` into it.
`none` models a crash: the locator's IndexError, or the KeyError on
`cam['repository_last_file']` when the scan assigned no frontier file. -/
def runOnce (today : String) (repo : Repo) (batch : List MediaRecord) : Option Repo :=
  let pr := processCam (initCam today repo)
  match pr.2 with
  | LocExit.error => none
  | _ =>
    match pr.1.lastFile with
    | none => none
    | some lf =>
      let repo1 := ensureToday repo today
      let st := dirFiles repo1 today
      some (setDir repo1 today (copy_and_rename lf st batch).1)

/-! ### Order facts for the string comparison -/

theorem charToNat_inj {a b : Char} (h : a.toNat = b.toNat) : a = b :=
  Char.eq_of_val_eq (UInt32.ext h)

theorem string_toList_inj {s t : String} (h : s.toList = t.toList) : s = t := by
  cases s; cases t; simpa [String.toList] using congrArg String.mk h

theorem charListLt_irrefl : ∀ l, charListLt l l = false
  | [] => rfl
  | a :: as => by simp [charListLt, charListLt_irrefl as]

theorem charListLt_trans :
    ∀ a b c, charListLt a b = true → charListLt b c = true → charListLt a c = true
  | [], _ :: _, _ :: _, _, _ => rfl
  | x :: xs, y :: ys, z :: zs, h1, h2 => by
    simp only [charListLt] at h1 h2 ⊢
    split_ifs at h1 h2 ⊢ <;>
      first
        | rfl
        | omega
        | exact absurd h1 (by decide)
        | exact absurd h2 (by decide)
        | exact charListLt_trans xs ys zs h1 h2
  | [], [], _, h1, _ => by simp [charListLt] at h1
  | [], _ :: _, [], _, h2 => by simp [charListLt] at h2
  | _ :: _, [], _, h1, _ => by simp [charListLt] at h1
  | _ :: _, _ :: _, [], _, h2 => by simp [charListLt] at h2

theorem charListLt_eq_of_not_lt :
    ∀ a b, charListLt a b = false → charListLt b a = false → a = b
  | [], [], _, _ => rfl
  | [], _ :: _, h1, _ => by simp [charListLt] at h1
  | _ :: _, [], _, h2 => by simp [charListLt] at h2
  | x :: xs, y :: ys, h1, h2 => by
    simp only [charListLt] at h1 h2
    split_ifs at h1 h2 with hxy hyx
    have hx : x = y := charToNat_inj (by omega)
    have := charListLt_eq_of_not_lt xs ys h1 h2
    simp [hx, this]

theorem strLt_irrefl (s : String) : strLt s s = false := charListLt_irrefl _

theorem strLt_trans {a b c : String} (h1 : strLt a b = true) (h2 : strLt b c = true) :
    strLt a c = true := charListLt_trans _ _ _ h1 h2

theorem strEq_of_not_lt {a b : String} (h1 : strLt a b = false) (h2 : strLt b a = false) :
    a = b := string_toList_inj (charListLt_eq_of_not_lt _ _ h1 h2)

theorem strLt_asymm {a b : String} (h : strLt a b = true) : strLt b a = false := by
  cases hba : strLt b a with
  | false => rfl
  | true => have := strLt_trans h hba; simp [strLt_irrefl] at this

theorem strLe_refl (s : String) : strLe s s = true := by simp [strLe, strLt_irrefl]

theorem strLe_of_strLt {a b : String} (h : strLt a b = true) : strLe a b = true := by
  simp [strLe, strLt_asymm h]

theorem strLt_of_not_strLe {a b : String} (h : strLe a b = false) : strLt b a = true := by
  simpa [strLe] using h

theorem strLe_of_not_strLe {a b : String} (h : strLe a b = false) : strLe b a = true :=
  strLe_of_strLt (strLt_of_not_strLe h)

theorem strLe_trans {a b c : String} (h1 : strLe a b = true) (h2 : strLe b c = true) :
    strLe a c = true := by
  simp only [strLe, Bool.not_eq_true'] at h1 h2 ⊢
  cases hca : strLt c a with
  | false => rfl
  | true =>
    cases hab : strLt a b with
    | true => exact absurd (strLt_trans hca hab) (by simp [h2])
    | false =>
      have hba : a = b := strEq_of_not_lt hab h1
      subst hba
      simp [h2] at hca

theorem strLt_of_strLe_of_ne {a b : String} (h : strLe a b = true) (hne : a ≠ b) :
    strLt a b = true := by
  simp only [strLe, Bool.not_eq_true'] at h
  cases hab : strLt a b with
  | true => rfl
  | false => exact absurd (strEq_of_not_lt hab h) hne

/-! ### Sorting lemmas -/

theorem mem_insertAscBy {α : Type} (key : α → String) (x : α) :
    ∀ (l : List α) (a : α), a ∈ insertAscBy key x l ↔ a = x ∨ a ∈ l
  | [], a => by simp [insertAscBy]
  | y :: ys, a => by
    simp only [insertAscBy]
    split_ifs
    · simp only [List.mem_cons]
    · simp only [List.mem_cons, mem_insertAscBy key x ys a]; tauto

theorem mem_sortAscBy {α : Type} (key : α → String) :
    ∀ (l : List α) (a : α), a ∈ sortAscBy key l ↔ a ∈ l
  | [], a => Iff.rfl
  | x :: xs, a => by
    simp only [sortAscBy, mem_insertAscBy, mem_sortAscBy key xs a, List.mem_cons]

theorem pairwise_insertAscBy {α : Type} (key : α → String) (x : α) :
    ∀ (l : List α), l.Pairwise (fun a b => strLe (key a) (key b) = true) →
      (insertAscBy key x l).Pairwise (fun a b => strLe (key a) (key b) = true)
  | [], _ => by simp [insertAscBy]
  | y :: ys, h => by
    rcases List.pairwise_cons.mp h with ⟨hy, hys⟩
    simp only [insertAscBy]
    split_ifs with hxy
    · refine List.pairwise_cons.mpr ⟨?_, h⟩
      intro b hb
      rcases List.mem_cons.mp hb with rfl | hb
      · exact hxy
      · exact strLe_trans hxy (hy b hb)
    · refine List.pairwise_cons.mpr ⟨?_, pairwise_insertAscBy key x ys hys⟩
      intro b hb
      rcases (mem_insertAscBy key x ys b).mp hb with rfl | hb
      · exact strLe_of_not_strLe (Bool.not_eq_true _ ▸ hxy)
      · exact hy b hb

theorem pairwise_sortAscBy {α : Type} (key : α → String) :
    ∀ (l : List α), (sortAscBy key l).Pairwise (fun a b => strLe (key a) (key b) = true)
  | [] => List.Pairwise.nil
  | x :: xs => pairwise_insertAscBy key x _ (pairwise_sortAscBy key xs)

theorem getLast?_max :
    ∀ (l : List String), l.Pairwise (fun a b => strLe a b = true) →
      ∀ f, l.getLast? = some f → f ∈ l ∧ ∀ g ∈ l, strLe g f = true
  | [], _, f, h => by simp at h
  | [x], _, f, h => by
    simp only [List.getLast?_singleton, Option.some.injEq] at h
    subst h
    exact ⟨by simp, by intro g hg; simp at hg; subst hg; exact strLe_refl _⟩
  | x :: y :: t, hp, f, h => by
    rcases List.pairwise_cons.mp hp with ⟨hx, hrest⟩
    have h' : (y :: t).getLast? = some f := by
      simpa [List.getLast?_cons_cons] using h
    rcases getLast?_max (y :: t) hrest f h' with ⟨hmem, hmax⟩
    refine ⟨List.mem_cons.mpr (Or.inr hmem), ?_⟩
    intro g hg
    rcases List.mem_cons.mp hg with rfl | hg
    · exact hx f hmem
    · exact hmax g hg

theorem lastSorted_spec {l : List String} {f : String} (h : lastSorted l = some f) :
    f ∈ l ∧ ∀ g ∈ l, strLe g f = true := by
  rcases getLast?_max (sortAscBy id l) (by simpa using pairwise_sortAscBy id l) f h with
    ⟨hmem, hmax⟩
  exact ⟨(mem_sortAscBy id l f).mp hmem, fun g hg => hmax g ((mem_sortAscBy id l g).mpr hg)⟩

theorem lastSorted_filter_conforming {l : List String} {f : String}
    (h : lastSorted (l.filter conforming) = some f) :
    conforming f = true ∧ f ∈ l ∧ ∀ g ∈ l, conforming g = true → strLe g f = true := by
  rcases lastSorted_spec h with ⟨hmem, hmax⟩
  rcases List.mem_filter.mp hmem with ⟨hml, hcf⟩
  exact ⟨hcf, hml, fun g hg hc => hmax g (List.mem_filter.mpr ⟨hg, hc⟩)⟩

theorem mem_insertDescBy {α : Type} (key : α → String) (x : α) :
    ∀ (l : List α) (a : α), a ∈ insertDescBy key x l ↔ a = x ∨ a ∈ l
  | [], a => by simp [insertDescBy]
  | y :: ys, a => by
    simp only [insertDescBy]
    split_ifs
    · simp only [List.mem_cons]
    · simp only [List.mem_cons, mem_insertDescBy key x ys a]; tauto

theorem mem_sortDescBy {α : Type} (key : α → String) :
    ∀ (l : List α) (a : α), a ∈ sortDescBy key l ↔ a ∈ l
  | [], a => Iff.rfl
  | x :: xs, a => by
    simp only [sortDescBy, mem_insertDescBy, mem_sortDescBy key xs a, List.mem_cons]

theorem insertDescBy_ne_nil {α : Type} (key : α → String) (x : α) (l : List α) :
    insertDescBy key x l ≠ [] := by
  cases l with
  | nil => simp [insertDescBy]
  | cons y ys =>
    simp only [insertDescBy]
    split_ifs <;> simp

theorem sortDescBy_eq_nil_iff {α : Type} (key : α → String) :
    ∀ (l : List α), sortDescBy key l = [] ↔ l = []
  | [] => by simp [sortDescBy]
  | x :: xs => by
    simp [sortDescBy, insertDescBy_ne_nil]

theorem sortDescBy_append_max :
    ∀ (l : List String) (x : String), (∀ y ∈ l, strLt y x = true) →
      sortDescBy id (l ++ [x]) = x :: sortDescBy id l
  | [], x, _ => rfl
  | a :: l, x, h => by
    have ha : strLt a x = true := h a (by simp)
    show insertDescBy id a (sortDescBy id (l ++ [x])) = x :: insertDescBy id a (sortDescBy id l)
    rw [sortDescBy_append_max l x (fun y hy => h y (by simp [hy]))]
    simp [insertDescBy, strLe, ha]

theorem sortDescBy_erase_max :
    ∀ (l : List String) (x : String), x ∈ l → l.Nodup →
      (∀ y ∈ l, y ≠ x → strLt y x = true) →
      sortDescBy id l = x :: sortDescBy id (l.erase x)
  | [], x, hm, _, _ => absurd hm (by simp)
  | a :: l, x, hm, hnd, hlt => by
    rcases List.nodup_cons.mp hnd with ⟨hal, hndl⟩
    by_cases hax : a = x
    · subst hax
      rw [List.erase_cons_head]
      simp only [sortDescBy]
      cases hs : sortDescBy id l with
      | nil => simp [insertDescBy]
      | cons h t =>
        have hhm : h ∈ l := (mem_sortDescBy id l h).mp (by simp [hs])
        have hha : h ≠ a := fun he => hal (he ▸ hhm)
        have hlt' : strLt h a = true := hlt h (by simp [hhm]) hha
        simp [insertDescBy, strLe_of_strLt hlt']
    · have hxl : x ∈ l := by
        rcases List.mem_cons.mp hm with h | h
        · exact absurd h.symm hax
        · exact h
      rw [List.erase_cons_tail (by simp [hax])]
      simp only [sortDescBy]
      rw [sortDescBy_erase_max l x hxl hndl
        (fun y hy hne => hlt y (by simp [hy]) hne)]
      have ha : strLt a x = true := hlt a (by simp) hax
      simp [insertDescBy, strLe, ha]

theorem insertDescBy_congr {α : Type} (k1 k2 : α → String) (x : α) (hx : k1 x = k2 x) :
    ∀ (l : List α), (∀ a ∈ l, k1 a = k2 a) → insertDescBy k1 x l = insertDescBy k2 x l
  | [], _ => rfl
  | y :: ys, h => by
    have hy : k1 y = k2 y := h y (by simp)
    simp only [insertDescBy, hx, hy]
    split_ifs
    · rfl
    · rw [insertDescBy_congr k1 k2 x hx ys (fun a ha => h a (by simp [ha]))]

theorem sortDescBy_congr {α : Type} (k1 k2 : α → String) :
    ∀ (l : List α), (∀ a ∈ l, k1 a = k2 a) → sortDescBy k1 l = sortDescBy k2 l
  | [], _ => rfl
  | x :: xs, h => by
    simp only [sortDescBy]
    rw [sortDescBy_congr k1 k2 xs (fun a ha => h a (by simp [ha]))]
    exact insertDescBy_congr k1 k2 x (h x (by simp)) _
      (fun a ha => h a (by simp [(mem_sortDescBy k2 xs a).mp ha]))

/-! ### Association-list and copy-loop lemmas -/

theorem memStr_iff {k : String} : ∀ {l : List String}, memStr k l = true ↔ k ∈ l
  | [] => by simp [memStr]
  | x :: t => by
    simp only [memStr, List.mem_cons]
    split_ifs with hx
    · simp [hx]
    · rw [memStr_iff]
      constructor
      · exact Or.inr
      · rintro (he | hm)
        · exact absurd he.symm hx
        · exact hm

theorem lookupA_eq_none_of_not_mem {α : Type} {k : String} :
    ∀ {st : List (String × α)}, memStr k (st.map Prod.fst) = false → lookupA k st = none
  | [], _ => rfl
  | (k', v) :: t, h => by
    simp only [List.map_cons, memStr] at h
    simp only [lookupA]
    split_ifs at h ⊢ with hk
    · exact lookupA_eq_none_of_not_mem h

theorem lookupA_append_of_isSome {α : Type} {k : String} {st : List (String × α)}
    (e : String × α) (h : (lookupA k st).isSome = true) :
    lookupA k (st ++ [e]) = lookupA k st := by
  induction st with
  | nil => simp [lookupA] at h
  | cons p t ih =>
    obtain ⟨k', v⟩ := p
    simp only [List.cons_append, lookupA] at h ⊢
    split_ifs at h ⊢ with hk
    · rfl
    · exact ih h

theorem lookupA_append_self {α : Type} {k : String} {st : List (String × α)} (v : α)
    (h : lookupA k st = none) : lookupA k (st ++ [(k, v)]) = some v := by
  induction st with
  | nil => simp [lookupA]
  | cons p t ih =>
    obtain ⟨k', w⟩ := p
    simp only [lookupA] at h
    simp only [List.cons_append, lookupA]
    split_ifs at h ⊢ with hk
    · exact ih h

theorem lookupA_append_ne {α : Type} {k k' : String} (hne : k' ≠ k)
    (st : List (String × α)) (v : α) : lookupA k (st ++ [(k', v)]) = lookupA k st := by
  induction st with
  | nil => simp [lookupA, hne]
  | cons p t ih =>
    simp only [List.cons_append, lookupA]
    split_ifs
    · rfl
    · exact ih

theorem guiCopyStep_preserves {f : String} {st : DirListing} {r : MediaRecord}
    {k v : String} (h : lookupA k st = some v) :
    lookupA k (guiCopyStep f st r).1 = some v := by
  simp only [guiCopyStep]
  split_ifs with hf
  · cases hl : lookupA (destName r) st with
    | some w => simpa [hl] using h
    | none =>
      simp only [hl]
      rw [lookupA_append_of_isSome _ (by simp [h])]
      exact h
  · exact h

theorem guiCopyLoop_preserves {f : String} {k v : String} :
    ∀ {batch : List MediaRecord} {st : DirListing}, lookupA k st = some v →
      lookupA k (guiCopyLoop f st batch).1 = some v
  | [], st, h => h
  | r :: rs, st, h => by
    simp only [guiCopyLoop]
    exact guiCopyLoop_preserves (guiCopyStep_preserves h)

theorem guiCopyLoop_isSome_mono {f k : String} {batch : List MediaRecord}
    {st : DirListing} (h : (lookupA k st).isSome = true) :
    (lookupA k (guiCopyLoop f st batch).1).isSome = true := by
  rcases Option.isSome_iff_exists.mp h with ⟨v, hv⟩
  simp [guiCopyLoop_preserves hv]

theorem guiCopyLoop_dest_isSome {f : String} :
    ∀ {batch : List MediaRecord} {st : DirListing} {r : MediaRecord}, r ∈ batch →
      strLt f r.ts = true → (lookupA (destName r) (guiCopyLoop f st batch).1).isSome = true
  | [], _, r, hr, _ => absurd hr (by simp)
  | b :: rs, st, r, hr, hf => by
    rcases List.mem_cons.mp hr with rfl | hr
    · simp only [guiCopyLoop]
      apply guiCopyLoop_isSome_mono
      simp only [guiCopyStep, hf, if_true]
      cases hl : lookupA (destName r) st with
      | some w => simp [hl]
      | none => simp [lookupA_append_self _ hl]
    · simp only [guiCopyLoop]
      exact guiCopyLoop_dest_isSome hr hf

theorem guiCopyLoop_fixed {f : String} :
    ∀ {batch : List MediaRecord} {st : DirListing},
      (∀ r ∈ batch, strLt f r.ts = true → (lookupA (destName r) st).isSome = true) →
      (guiCopyLoop f st batch).1 = st
  | [], _, _ => rfl
  | r :: rs, st, h => by
    simp only [guiCopyLoop]
    have hstep : guiCopyStep f st r = (st, (guiCopyStep f st r).2) := by
      simp only [guiCopyStep]
      split_ifs with hf
      · rcases Option.isSome_iff_exists.mp (h r (by simp) hf) with ⟨v, hv⟩
        simp [hv]
      · rfl
    rw [show (guiCopyStep f st r).1 = st from congrArg Prod.fst hstep]
    exact guiCopyLoop_fixed (fun b hb => h b (by simp [hb]))

theorem guiCopyLoop_all_old {f : String} :
    ∀ {batch : List MediaRecord} {st : DirListing},
      (∀ r ∈ batch, strLt f r.ts = false) → guiCopyLoop f st batch = (st, [])
  | [], _, _ => rfl
  | r :: rs, st, h => by
    have hr : strLt f r.ts = false := h r (by simp)
    simp only [guiCopyLoop, guiCopyStep, hr]
    simp only [Bool.false_eq_true, if_false]
    rw [guiCopyLoop_all_old (fun b hb => h b (by simp [hb]))]
    rfl

/-! ### Locator lemmas -/

theorem camLoop_skip_cons (c : Cam) (d : String) (ds : List String) :
    camLoop c true (d :: ds) = camLoop c false ds := by
  simp [camLoop]

theorem camLoop_ne_early :
    ∀ (ds : List String) (c : Cam) (skip : Bool), (camLoop c skip ds).2 ≠ LocExit.early
  | [], c, skip => by simp [camLoop]
  | d :: ds, c, skip => by
    simp only [camLoop]
    split_ifs with hs hl
    · exact camLoop_ne_early ds c false
    · exact camLoop_ne_early ds _ false
    · cases hf : lastSorted ((fileNames c.repo d).filter conforming) with
      | none => simp [hf]
      | some f => simp [hf]

theorem camLoop_agree :
    ∀ (ds : List String) (c c' : Cam) (skip : Bool), c.lastFile = c'.lastFile →
      (∀ d ∈ ds, fileNames c.repo d = fileNames c'.repo d) →
      (camLoop c skip ds).1.lastFile = (camLoop c' skip ds).1.lastFile ∧
        (camLoop c skip ds).2 = (camLoop c' skip ds).2
  | [], c, c', skip, hlf, _ => by simp [camLoop, hlf]
  | d :: ds, c, c', skip, hlf, hfn => by
    have hd : fileNames c.repo d = fileNames c'.repo d := hfn d (by simp)
    simp only [camLoop, hd]
    split_ifs with hs hl
    · exact camLoop_agree ds c c' false hlf (fun e he => hfn e (by simp [he]))
    · exact camLoop_agree ds _ _ false (by simpa using hlf)
        (fun e he => hfn e (by simp [he]))
    · cases hf : lastSorted ((fileNames c'.repo d).filter conforming) with
      | none => simp [hf, hlf]
      | some f => simp [hf]

theorem camLoop_found :
    ∀ (ds : List String) (c : Cam) (skip : Bool) (f : String), c.lastFile = none →
      (camLoop c skip ds).1.lastFile = some f →
      ∃ d ∈ ds, conforming f = true ∧ f ∈ fileNames c.repo d ∧
        ∀ g ∈ fileNames c.repo d, conforming g = true → strLe g f = true
  | [], c, skip, f, hnone, hsome => by
    simp [camLoop, hnone] at hsome
  | d :: ds, c, skip, f, hnone, hsome => by
    simp only [camLoop] at hsome
    split_ifs at hsome with hs hl
    · rcases camLoop_found ds c false f hnone hsome with ⟨e, he, hprop⟩
      exact ⟨e, by simp [he], hprop⟩
    · rcases camLoop_found ds _ false f (by simpa using hnone) hsome with ⟨e, he, hprop⟩
      exact ⟨e, by simp [he], hprop⟩
    · cases hf : lastSorted ((fileNames c.repo d).filter conforming) with
      | none => simp [hf, hnone] at hsome
      | some g =>
        simp only [hf] at hsome
        have hg : g = f := by simpa using hsome
        subst hg
        rcases lastSorted_filter_conforming hf with ⟨hc, hm, hmax⟩
        exact ⟨d, by simp, hc, hm, hmax⟩

/-! ### Repository-update lemmas -/

theorem setDir_cons (k : String) (w : DirListing) (t : Repo) (d : String) (v : DirListing) :
    setDir ((k, w) :: t) d v = (if k = d then (d, v) else (k, w)) :: setDir t d v := rfl

theorem lookupA_cons {α : Type} (k k' : String) (v : α) (t : List (String × α)) :
    lookupA k ((k', v) :: t) = if k' = k then some v else lookupA k t := rfl

theorem namesOf_cons (k : String) (w : DirListing) (t : Repo) :
    namesOf ((k, w) :: t) = k :: namesOf t := rfl

theorem namesOf_setDir (d : String) (v : DirListing) :
    ∀ (repo : Repo), namesOf (setDir repo d v) = namesOf repo
  | [] => rfl
  | (k, w) :: t => by
    rw [setDir_cons]
    by_cases hk : k = d
    · rw [if_pos hk, namesOf_cons, namesOf_cons, namesOf_setDir d v t, hk]
    · rw [if_neg hk, namesOf_cons, namesOf_cons, namesOf_setDir d v t]

theorem lookupA_setDir_ne {d d' : String} (v : DirListing) (hne : d' ≠ d) :
    ∀ (repo : Repo), lookupA d' (setDir repo d v) = lookupA d' repo
  | [] => rfl
  | (k, w) :: t => by
    rw [setDir_cons]
    by_cases hk : k = d
    · rw [if_pos hk, lookupA_cons, lookupA_cons,
        if_neg (fun h : d = d' => hne h.symm),
        if_neg (fun h : k = d' => hne (hk ▸ h).symm),
        lookupA_setDir_ne v hne t]
    · rw [if_neg hk, lookupA_cons, lookupA_cons, lookupA_setDir_ne v hne t]

theorem dirFiles_setDir_ne (repo : Repo) {d d' : String} (v : DirListing)
    (hne : d' ≠ d) : dirFiles (setDir repo d v) d' = dirFiles repo d' := by
  simp [dirFiles, lookupA_setDir_ne v hne repo]

theorem lookupA_setDir_self (d : String) (v : DirListing) :
    ∀ (repo : Repo), memStr d (namesOf repo) = true →
      lookupA d (setDir repo d v) = some v
  | [], hmem => by simp [namesOf, memStr] at hmem
  | (k, w) :: t, hmem => by
    rw [setDir_cons]
    by_cases hk : k = d
    · rw [if_pos hk, lookupA_cons, if_pos rfl]
    · rw [namesOf_cons] at hmem
      simp only [memStr, if_neg hk] at hmem
      rw [if_neg hk, lookupA_cons, if_neg hk]
      exact lookupA_setDir_self d v t hmem

theorem dirFiles_setDir_self (repo : Repo) (d : String) (v : DirListing)
    (hmem : memStr d (namesOf repo) = true) :
    dirFiles (setDir repo d v) d = v := by
  simp [dirFiles, lookupA_setDir_self d v repo hmem]

theorem setDir_setDir (d : String) (v v' : DirListing) :
    ∀ (repo : Repo), setDir (setDir repo d v') d v = setDir repo d v
  | [] => rfl
  | (k, w) :: t => by
    rw [setDir_cons, setDir_cons]
    by_cases hk : k = d
    · rw [if_pos hk, setDir_cons, if_pos rfl, setDir_setDir d v v' t, if_pos hk]
    · rw [if_neg hk, setDir_cons, if_neg hk, setDir_setDir d v v' t]

theorem ensureToday_of_mem {repo : Repo} {today : String}
    (h : memStr today (namesOf repo) = true) : ensureToday repo today = repo := by
  simp [ensureToday, h]

theorem ensureToday_of_not_mem {repo : Repo} {today : String}
    (h : memStr today (namesOf repo) = false) :
    ensureToday repo today = repo ++ [(today, [])] := by
  simp [ensureToday, h]

theorem memStr_append_self (k : String) (l : List String) :
    memStr k (l ++ [k]) = true := by
  induction l with
  | nil => simp [memStr]
  | cons x t ih =>
    simp only [List.cons_append, memStr]
    split_ifs
    · rfl
    · exact ih

theorem namesOf_append_dir (repo : Repo) (d : String) (v : DirListing) :
    namesOf (repo ++ [(d, v)]) = namesOf repo ++ [d] := by
  simp [namesOf]

theorem memStr_namesOf_ensureToday (repo : Repo) (today : String) :
    memStr today (namesOf (ensureToday repo today)) = true := by
  by_cases h : memStr today (namesOf repo) = true
  · simp [ensureToday_of_mem h, h]
  · rw [ensureToday_of_not_mem (by simpa using h), namesOf_append_dir]
    exact memStr_append_self _ _

/-! ### Truncation lemmas for the copy loops -/

theorem guiCopyLoop_takeWhile {f : String} :
    ∀ {batch : List MediaRecord} (st : DirListing),
      batch.Pairwise (fun a b => strLe b.ts a.ts = true) →
      guiCopyLoop f st batch
        = guiCopyLoop f st (batch.takeWhile (fun r => strLt f r.ts))
  | [], st, _ => rfl
  | r :: rs, st, h => by
    rcases List.pairwise_cons.mp h with ⟨hr, hrs⟩
    cases hf : strLt f r.ts with
    | true =>
      rw [List.takeWhile_cons, hf]
      simp only [guiCopyLoop]
      rw [← guiCopyLoop_takeWhile _ hrs]
    | false =>
      have hall : ∀ b ∈ r :: rs, strLt f b.ts = false := by
        intro b hb
        rcases List.mem_cons.mp hb with rfl | hb
        · exact hf
        · have h1 : strLe r.ts f = true := by simp [strLe, hf]
          have h2 : strLe b.ts f = true := strLe_trans (hr b hb) h1
          simpa [strLe] using h2
      rw [guiCopyLoop_all_old hall, List.takeWhile_cons, hf]
      rfl

theorem cliCopyLoop_takeWhile (f : String) :
    ∀ (batch : List MediaRecord) (st : DirListing),
      cliCopyLoop f st batch
        = cliCopyLoop f st (batch.takeWhile (fun r => strLt f r.ts))
  | [], _ => rfl
  | r :: rs, st => by
    cases hf : strLt f r.ts with
    | true =>
      rw [List.takeWhile_cons, hf]
      simp only [cliCopyLoop, hf, if_true]
      rw [← cliCopyLoop_takeWhile f rs]
    | false =>
      rw [List.takeWhile_cons, hf]
      simp [cliCopyLoop, hf]

/-! ### Claim theorems -/

/-- C1: in both copy loops the scan stops at the frontier.  For a
descending-ordered batch the result of the GUI loop (and, unconditionally,
of the command-line loop with its `break`) equals the result on the maximal
prefix of records whose capture timestamp is strictly greater than the
frontier timestamp — the first 15 characters of the repository's last file
name, compared lexicographically — so records at or past the first
non-newer record contribute nothing; and a passing record's decision is
COPY with destination name `timestamp_lowercasedbasename` when the
destination is absent. -/
theorem c1_frontier_scan_short_circuit (lastFile : String) (st : DirListing)
    (batch : List MediaRecord)
    (hsorted : batch.Pairwise (fun a b => strLe b.ts a.ts = true)) :
    copy_and_rename lastFile st batch
        = copy_and_rename lastFile st
            (batch.takeWhile (fun r => strLt (strTake 15 lastFile) r.ts)) ∧
    cliCopyLoop (strTake 15 lastFile) st batch
        = cliCopyLoop (strTake 15 lastFile) st
            (batch.takeWhile (fun r => strLt (strTake 15 lastFile) r.ts)) ∧
    (∀ r : MediaRecord, destName r = strToLower (r.ts ++ "_" ++ baseName r.path)) ∧
    (∀ (r : MediaRecord) (st' : DirListing), strLt (strTake 15 lastFile) r.ts = true →
      lookupA (destName r) st' = none →
      guiCopyStep (strTake 15 lastFile) st' r
        = (st' ++ [(destName r, r.content)],
           some (MergeEvent.copied r.path (destName r)))) := by
  refine ⟨guiCopyLoop_takeWhile st hsorted, cliCopyLoop_takeWhile _ batch st,
    fun r => rfl, ?_⟩
  intro r st' hf hl
  simp [guiCopyStep, hf, hl]

/-- Witness for C1 at a concrete two-record batch whose second record is at
the frontier. -/
theorem c1_witness :
    ([(⟨"H:\\DCIM\\100NIKON\\DSC_0002.JPG", "20230505-120000", "N"⟩ : MediaRecord),
      ⟨"H:\\DCIM\\100NIKON\\DSC_0001.JPG", "20230504-110000", "O"⟩] :
        List MediaRecord).Pairwise (fun a b => strLe b.ts a.ts = true) ∧
    copy_and_rename "20230504-110000_dsc_0001.jpg" []
        [⟨"H:\\DCIM\\100NIKON\\DSC_0002.JPG", "20230505-120000", "N"⟩,
         ⟨"H:\\DCIM\\100NIKON\\DSC_0001.JPG", "20230504-110000", "O"⟩]
      = copy_and_rename "20230504-110000_dsc_0001.jpg" []
          ([⟨"H:\\DCIM\\100NIKON\\DSC_0002.JPG", "20230505-120000", "N"⟩,
            ⟨"H:\\DCIM\\100NIKON\\DSC_0001.JPG", "20230504-110000", "O"⟩].takeWhile
            (fun r => strLt (strTake 15 "20230504-110000_dsc_0001.jpg") r.ts)) :=
  ⟨by decide, (c1_frontier_scan_short_circuit "20230504-110000_dsc_0001.jpg" []
    [⟨"H:\\DCIM\\100NIKON\\DSC_0002.JPG", "20230505-120000", "N"⟩,
     ⟨"H:\\DCIM\\100NIKON\\DSC_0001.JPG", "20230504-110000", "O"⟩] (by decide)).1⟩

/-- C2 (amended): in the GUI implementation the copy loop never changes the
bytes stored under an existing destination name, and a frontier-passing
record whose destination already exists produces exactly a skip action with
no state change. -/
theorem c2_gui_no_overwrite (f : String) (st : DirListing) (batch : List MediaRecord) :
    (∀ k v, lookupA k st = some v → lookupA k (guiCopyLoop f st batch).1 = some v) ∧
    (∀ (r : MediaRecord), strLt f r.ts = true → ∀ v, lookupA (destName r) st = some v →
      guiCopyStep f st r = (st, some (MergeEvent.skipExists (destName r)))) := by
  refine ⟨fun k v h => guiCopyLoop_preserves h, ?_⟩
  intro r hf v hv
  simp [guiCopyStep, hf, hv]

/-- Witness for C2: a pre-existing destination file's bytes survive a copy
run over a colliding record. -/
theorem c2_witness :
    lookupA "20230505-120000_dsc_0001.jpg"
      [("20230505-120000_dsc_0001.jpg", "OLD")] = some "OLD" ∧
    lookupA "20230505-120000_dsc_0001.jpg"
      (guiCopyLoop "20230504-110000"
        [("20230505-120000_dsc_0001.jpg", "OLD")]
        [⟨"J:\\DCIM\\200NIKON\\DSC_0001.JPG", "20230505-120000", "NEW"⟩]).1
      = some "OLD" :=
  ⟨by decide,
    (c2_gui_no_overwrite "20230504-110000"
      [("20230505-120000_dsc_0001.jpg", "OLD")]
      [⟨"J:\\DCIM\\200NIKON\\DSC_0001.JPG", "20230505-120000", "NEW"⟩]).1
      "20230505-120000_dsc_0001.jpg" "OLD" (by decide)⟩

/-- Counterexample for C2 as stated: the command-line script's copy loop
(update_camera_dir.py, lines 322-333) has no existence check; two
frontier-passing records with the same destination name are both copied,
and the second silently replaces the first one's bytes — no decision
degrades to a skip. -/
theorem c2_counterexample_cli_overwrites :
    (cliCopyLoop "19700101-010101" []
      [⟨"H:\\DCIM\\100NIKON\\DSC_0001.JPG", "20230505-120000", "AAA"⟩]).1
      = [("20230505-120000_dsc_0001.jpg", "AAA")] ∧
    cliCopyLoop "19700101-010101" []
      [⟨"H:\\DCIM\\100NIKON\\DSC_0001.JPG", "20230505-120000", "AAA"⟩,
       ⟨"J:\\DCIM\\200NIKON\\DSC_0001.JPG", "20230505-120000", "BBB"⟩]
      = ([("20230505-120000_dsc_0001.jpg", "BBB")],
         [MergeEvent.copied "H:\\DCIM\\100NIKON\\DSC_0001.JPG"
            "20230505-120000_dsc_0001.jpg",
          MergeEvent.copied "J:\\DCIM\\200NIKON\\DSC_0001.JPG"
            "20230505-120000_dsc_0001.jpg"]) := by
  constructor
  · decide
  · decide

/-- Helper: the per-camera locator on an empty repository listing assigns
the 1970 placeholder name and exits with the whole-function `return`. -/
theorem processCam_empty_repo {c : Cam} (hn : c.hasNewRepoDir = true)
    (hr : c.repo = []) :
    processCam c
      = ({ c with lastFile := some "19700101-010101_placeholder" }, LocExit.early) := by
  simp [processCam, hn, hr, namesOf, sortDescBy]

/-- Helper: with at least one dated directory the locator never takes the
early `return`. -/
theorem processCam_ne_early {c : Cam} (hr : c.repo ≠ []) :
    (processCam c).2 ≠ LocExit.early := by
  simp only [processCam]
  split_ifs with hn
  · cases hs : sortDescBy id (namesOf c.repo) with
    | nil =>
      have : namesOf c.repo = [] := (sortDescBy_eq_nil_iff id _).mp hs
      exact absurd (List.map_eq_nil_iff.mp this) hr
    | cons d ds => exact camLoop_ne_early (d :: ds) c c.todayExists
  · simp

/-- C4 (amended): in the GUI locator, whenever the scan assigns a frontier
file it is a conforming name, drawn from one of the dated directories, and
it is lexicographically maximal among that directory's conforming names;
non-conforming names are never chosen. -/
theorem c4_gui_frontier_conforming (c : Cam) (hn : c.hasNewRepoDir = true)
    (hne : c.repo ≠ []) (hlf : c.lastFile = none) (f : String)
    (h : (processCam c).1.lastFile = some f) :
    conforming f = true ∧ ∃ d ∈ namesOf c.repo, f ∈ fileNames c.repo d ∧
      ∀ g ∈ fileNames c.repo d, conforming g = true → strLe g f = true := by
  simp only [processCam, hn, if_true] at h
  cases hs : sortDescBy id (namesOf c.repo) with
  | nil =>
    have : namesOf c.repo = [] := (sortDescBy_eq_nil_iff id _).mp hs
    exact absurd (List.map_eq_nil_iff.mp this) hne
  | cons d ds =>
    rw [hs] at h
    rcases camLoop_found (d :: ds) c c.todayExists f hlf h with ⟨e, he, hc, hm, hmax⟩
    refine ⟨hc, e, ?_, hm, hmax⟩
    exact (mem_sortDescBy id (namesOf c.repo) e).mp (hs ▸ he)

/-- Witness for C4: a dated directory holding one conforming file and one
OS thumbnail file yields the conforming file as frontier. -/
theorem c4_witness :
    conforming "20230101-000000_a.jpg" = true ∧
    ∃ d ∈ namesOf [("2023-01-01",
        [("20230101-000000_a.jpg", "A"), ("thumbs.db", "T")])],
      "20230101-000000_a.jpg" ∈ fileNames [("2023-01-01",
        [("20230101-000000_a.jpg", "A"), ("thumbs.db", "T")])] d ∧
      ∀ g ∈ fileNames [("2023-01-01",
        [("20230101-000000_a.jpg", "A"), ("thumbs.db", "T")])] d,
        conforming g = true → strLe g "20230101-000000_a.jpg" = true :=
  c4_gui_frontier_conforming
    ⟨true, false, [("2023-01-01", [("20230101-000000_a.jpg", "A"), ("thumbs.db", "T")])],
      none, none⟩
    rfl (by decide) rfl "20230101-000000_a.jpg" (by decide)

/-- Counterexample for C4 as stated: the command-line script's frontier
loop (update_camera_dir.py, lines 297-306) applies no conformity filter, so
an OS thumbnail file that sorts last is chosen as the frontier file. -/
theorem c4_counterexample_cli_nonconforming :
    cliFindLastFile [("2023-01-01", ["20230101-000000_a.jpg", "thumbs.db"])]
      = some ("2023-01-01", "thumbs.db") ∧ conforming "thumbs.db" = false := by
  constructor
  · decide
  · decide

/-- C5 (amended): the epoch-sentinel placeholder is assigned exactly when
the archive has zero dated directories; in that case the locator returns
early with `19700101-010101_placeholder` as the last file. -/
theorem c5_sentinel_iff_no_dated_dirs (c : Cam) (hn : c.hasNewRepoDir = true) :
    ((processCam c).2 = LocExit.early ↔ c.repo = []) ∧
    (c.repo = [] →
      processCam c
        = ({ c with lastFile := some "19700101-010101_placeholder" }, LocExit.early)) := by
  refine ⟨⟨?_, ?_⟩, fun hr => processCam_empty_repo hn hr⟩
  · intro he
    by_cases hr : c.repo = []
    · exact hr
    · exact absurd he (processCam_ne_early hr)
  · intro hr
    rw [processCam_empty_repo hn hr]

/-- Witness for C5 at a brand-new camera archive. -/
theorem c5_witness :
    ((processCam (⟨true, false, [], none, none⟩ : Cam)).2 = LocExit.early ↔
      (⟨true, false, [], none, none⟩ : Cam).repo = []) ∧
    ((⟨true, false, [], none, none⟩ : Cam).repo = [] →
      processCam (⟨true, false, [], none, none⟩ : Cam)
        = (⟨true, false, [], some "19700101-010101_placeholder", none⟩, LocExit.early)) :=
  c5_sentinel_iff_no_dated_dirs ⟨true, false, [], none, none⟩ rfl

/-- Counterexample for C5 as stated: dated directories exist but none holds
a conforming file — the locator raises the IndexError of `sorted([])[-1]`
instead of returning the epoch sentinel. -/
theorem c5_counterexample_error_not_sentinel :
    (processCam (⟨true, false, [("2023-01-01", [("thumbs.db", "T")])], none, none⟩ : Cam)).2
      = LocExit.error ∧
    (processCam (⟨true, false, [("2023-01-01", [("thumbs.db", "T")])], none, none⟩ : Cam)).1.lastFile
      = none := by
  constructor
  · decide
  · decide

/-- C9: a camera with `new_repository_dir` set but an empty repository
listing gets the placeholder last file and makes `find_repository_last_files`
return from the whole function at once, leaving every later camera's
`repository_last_file` and `repository_last_dir` exactly as they were. -/
theorem c9_early_return_skips_later_cameras :
    ∀ (pre : List Cam) (c : Cam) (cs : List Cam),
      (∀ x ∈ pre, (processCam x).2 = LocExit.normal) →
      c.hasNewRepoDir = true → c.repo = [] →
      find_repository_last_files (pre ++ c :: cs)
        = (pre.map (fun x => (processCam x).1)
            ++ ({ c with lastFile := some "19700101-010101_placeholder" } :: cs),
           LocExit.early)
  | [], c, cs, _, hn, hr => by
    simp [find_repository_last_files, processCam_empty_repo hn hr]
  | x :: pre, c, cs, hpre, hn, hr => by
    have hx : (processCam x).2 = LocExit.normal := hpre x (by simp)
    have ih := c9_early_return_skips_later_cameras pre c cs
      (fun y hy => hpre y (by simp [hy])) hn hr
    show find_repository_last_files (x :: (pre ++ c :: cs)) = _
    simp only [find_repository_last_files, hx, ih, List.map_cons, List.cons_append]

/-- Witness for C9: one camera without a target directory, then the
empty-archive camera, then one more camera that stays untouched. -/
theorem c9_witness :
    find_repository_last_files
      [⟨false, false, [("2023-01-01", [("20230101-000000_a.jpg", "A")])], none, none⟩,
       ⟨true, false, [], none, none⟩,
       ⟨true, true, [("2023-02-02", [("20230202-000000_b.jpg", "B")])], none, none⟩]
      = ([⟨false, false, [("2023-01-01", [("20230101-000000_a.jpg", "A")])], none, none⟩,
          ⟨true, false, [], some "19700101-010101_placeholder", none⟩,
          ⟨true, true, [("2023-02-02", [("20230202-000000_b.jpg", "B")])], none, none⟩],
         LocExit.early) := by
  have h := c9_early_return_skips_later_cameras
    [⟨false, false, [("2023-01-01", [("20230101-000000_a.jpg", "A")])], none, none⟩]
    ⟨true, false, [], none, none⟩
    [⟨true, true, [("2023-02-02", [("20230202-000000_b.jpg", "B")])], none, none⟩]
    (by intro x hx; simp at hx; subst hx; decide) rfl rfl
  simpa using h

/-- C10: when the scan loop reaches a non-skipped, non-empty dated
directory whose names all fail the conformity test, the filtered list is
empty and `sorted(filtered_filelist)[-1]` raises its IndexError: the loop
stops there, neither proceeding to an older directory nor producing the
sentinel, and no frontier file is assigned. -/
theorem c10_nonconforming_dir_raises (c : Cam) (d : String) (ds : List String)
    (hne : fileNames c.repo d ≠ [])
    (hnc : (fileNames c.repo d).filter conforming = []) :
    camLoop c false (d :: ds) = ({ c with lastDir := some (d ++ "\\") }, LocExit.error) := by
  simp only [camLoop, Bool.false_eq_true, if_false, hnc]
  rw [if_neg (by simpa [List.length_eq_zero] using hne)]
  simp [lastSorted, sortAscBy]

/-- Witness for C10: the newest dated directory holds only a thumbnail
file while an older directory holds a conforming file; the locator stops
with the error and never reaches the older directory. -/
theorem c10_witness :
    camLoop (⟨true, false,
        [("2023-02-02", [("thumbs.db", "T")]),
         ("2023-01-01", [("20230101-000000_a.jpg", "A")])], none, none⟩ : Cam)
      false ["2023-02-02", "2023-01-01"]
      = (⟨true, false,
          [("2023-02-02", [("thumbs.db", "T")]),
           ("2023-01-01", [("20230101-000000_a.jpg", "A")])], none,
          some "2023-02-02\\"⟩, LocExit.error) :=
  c10_nonconforming_dir_raises
    ⟨true, false,
      [("2023-02-02", [("thumbs.db", "T")]),
       ("2023-01-01", [("20230101-000000_a.jpg", "A")])], none, none⟩
    "2023-02-02" ["2023-01-01"] (by decide) (by decide)

/-- Helper: on a path of exactly four backslash-separated components, the
GUI sort key's component-3 pick is the base file name. -/
theorem getD3_of_length4 (l : List String) (h : l.length = 4) :
    l.getD 3 "" = l.getLastD "" := by
  cases l with
  | nil => simp at h
  | cons a t =>
    cases t with
    | nil => simp at h
    | cons b u =>
      cases u with
      | nil => simp at h
      | cons e v =>
        cases v with
        | nil => simp at h
        | cons g w =>
          cases w with
          | nil => rfl
          | cons i z => simp [List.length_cons] at h

/-- Helper: the GUI sort key coincides with the spec's composite key on
card-style paths (drive, media directory, camera folder, file name). -/
theorem guiSortKey_eq_specCompositeKey {r : MediaRecord}
    (h : (pathComponents r.path).length = 4) :
    guiSortKey r = specCompositeKey r := by
  simp only [guiSortKey, specCompositeKey, baseName]
  rw [getD3_of_length4 _ h]

/-- C7 (amended): the GUI batch sort is by the capture timestamp
concatenated with the fourth backslash-separated path component; on batches
whose records all have card-style four-component paths this equals sorting
by the spec's composite key (timestamp then base name), descending and
deterministic. -/
theorem c7_sort_composite_on_card_paths (batch : List MediaRecord)
    (h4 : ∀ r ∈ batch, (pathComponents r.path).length = 4) :
    sortFilesWithTimes batch = sortDescBy specCompositeKey batch := by
  exact sortDescBy_congr guiSortKey specCompositeKey batch
    (fun r hr => guiSortKey_eq_specCompositeKey (h4 r hr))

/-- Witness for C7 on a card-source batch with a timestamp tie broken by
base name. -/
theorem c7_witness :
    sortFilesWithTimes
      [⟨"H:\\DCIM\\100NIKON\\DSC_0001.NEF", "20230505-120000", "A"⟩,
       ⟨"H:\\DCIM\\100NIKON\\DSC_0002.NEF", "20230505-120000", "B"⟩]
      = sortDescBy specCompositeKey
        [⟨"H:\\DCIM\\100NIKON\\DSC_0001.NEF", "20230505-120000", "A"⟩,
         ⟨"H:\\DCIM\\100NIKON\\DSC_0002.NEF", "20230505-120000", "B"⟩] :=
  c7_sort_composite_on_card_paths
    [⟨"H:\\DCIM\\100NIKON\\DSC_0001.NEF", "20230505-120000", "A"⟩,
     ⟨"H:\\DCIM\\100NIKON\\DSC_0002.NEF", "20230505-120000", "B"⟩]
    (by decide)

/-- Counterexample for C7 as stated: for two equal-timestamp records from a
backup drive (five path components), the GUI sort orders them by the DCIM
subdirectory name, opposite to the base-name order the claim requires; and
the command-line script's timestamp-only sort leaves the tie in catalog
order rather than base-name order. -/
theorem c7_counterexample_backup_path_tiebreak :
    sortFilesWithTimes
      [⟨"T:\\d500\\DCIM\\100NIKON\\DSC_9999.NEF", "20230505-120000", "A"⟩,
       ⟨"T:\\d500\\DCIM\\101NIKON\\DSC_0001.NEF", "20230505-120000", "B"⟩]
      = [⟨"T:\\d500\\DCIM\\101NIKON\\DSC_0001.NEF", "20230505-120000", "B"⟩,
         ⟨"T:\\d500\\DCIM\\100NIKON\\DSC_9999.NEF", "20230505-120000", "A"⟩] ∧
    sortDescBy specCompositeKey
      [⟨"T:\\d500\\DCIM\\100NIKON\\DSC_9999.NEF", "20230505-120000", "A"⟩,
       ⟨"T:\\d500\\DCIM\\101NIKON\\DSC_0001.NEF", "20230505-120000", "B"⟩]
      = [⟨"T:\\d500\\DCIM\\100NIKON\\DSC_9999.NEF", "20230505-120000", "A"⟩,
         ⟨"T:\\d500\\DCIM\\101NIKON\\DSC_0001.NEF", "20230505-120000", "B"⟩] ∧
    sortDescBy cliSortKey
      [⟨"T:\\d500\\DCIM\\101NIKON\\DSC_0001.NEF", "20230505-120000", "B"⟩,
       ⟨"T:\\d500\\DCIM\\100NIKON\\DSC_9999.NEF", "20230505-120000", "A"⟩]
      = [⟨"T:\\d500\\DCIM\\101NIKON\\DSC_0001.NEF", "20230505-120000", "B"⟩,
         ⟨"T:\\d500\\DCIM\\100NIKON\\DSC_9999.NEF", "20230505-120000", "A"⟩] := by
  refine ⟨by decide, by decide, by decide⟩

/-- C8 (amended): the cataloging pass falls back to the formatted
filesystem creation time (4-digit year, 24-hour clock) only for files whose
extension is not in the picture list; a picture-extension file is cataloged
from its DateTimeOriginal tag when present and is dropped from the batch
when the tag is absent. -/
theorem c8_catalog_fallback (f : SourceFile) :
    (f.ext ∈ PICTURE_EXTENSIONS →
      catalogFile f
        = f.exifDateTimeOriginal.map (fun e => (f.path, exiftime_to_file_stamp e))) ∧
    (f.ext ∉ PICTURE_EXTENSIONS →
      catalogFile f = some (f.path, strftimeYmdHMS f.created)) := by
  constructor
  · intro hp
    cases he : f.exifDateTimeOriginal with
    | none => simp [catalogFile, hp, he]
    | some e => simp [catalogFile, hp, he]
  · intro hp
    simp [catalogFile, hp]

/-- Witness for C8: a video file is cataloged from its creation time. -/
theorem c8_witness :
    catalogFile ⟨"H:\\DCIM\\100NIKON\\DSCN0005.MOV", ".MOV", none,
        ⟨2023, 5, 5, 12, 0, 0⟩⟩
      = some ("H:\\DCIM\\100NIKON\\DSCN0005.MOV", "20230505-120000") :=
  (c8_catalog_fallback
    ⟨"H:\\DCIM\\100NIKON\\DSCN0005.MOV", ".MOV", none,
      ⟨2023, 5, 5, 12, 0, 0⟩⟩).2 (by decide)

/-- Counterexample for C8 as stated: a picture-extension file whose
DateTimeOriginal tag is absent is dropped from the batch — no creation-time
fallback record is produced. -/
theorem c8_counterexample_dropped_record :
    (".JPG" ∈ PICTURE_EXTENSIONS) ∧
    catalogFile ⟨"H:\\DCIM\\100NIKON\\DSC_0002.JPG", ".JPG", none,
        ⟨2023, 5, 5, 12, 0, 0⟩⟩ = none := by
  refine ⟨by decide, by decide⟩

/-- C6 (amended, GUI): when today's target directory already exists and is
the lexicographic maximum of the dated directories, the GUI locator skips
it, so the frontier result is unchanged under any replacement of today's
directory contents — a file copied into today's directory earlier the same
day is never used as the frontier file. -/
theorem c6_gui_today_dir_excluded (c : Cam) (today : String) (g : DirListing)
    (hn : c.hasNewRepoDir = true) (hte : c.todayExists = true)
    (hmem : today ∈ namesOf c.repo)
    (hmax : ∀ d ∈ namesOf c.repo, d ≠ today → strLt d today = true)
    (hnd : (namesOf c.repo).Nodup) :
    (processCam { c with repo := setDir c.repo today g }).1.lastFile
        = (processCam c).1.lastFile ∧
    (processCam { c with repo := setDir c.repo today g }).2 = (processCam c).2 := by
  have hs : sortDescBy id (namesOf c.repo)
      = today :: sortDescBy id ((namesOf c.repo).erase today) :=
    sortDescBy_erase_max (namesOf c.repo) today hmem hnd hmax
  have hn2 : namesOf (setDir c.repo today g) = namesOf c.repo :=
    namesOf_setDir today g c.repo
  have h1 : processCam c
      = camLoop c true (today :: sortDescBy id ((namesOf c.repo).erase today)) := by
    simp [processCam, hn, hs, hte]
  have h2 : processCam { c with repo := setDir c.repo today g }
      = camLoop { c with repo := setDir c.repo today g } true
          (today :: sortDescBy id ((namesOf c.repo).erase today)) := by
    simp [processCam, hn, hn2, hs, hte]
  rw [h1, h2, camLoop_skip_cons, camLoop_skip_cons]
  apply camLoop_agree
  · rfl
  · intro d hd
    have hd2 : d ∈ (namesOf c.repo).erase today := (mem_sortDescBy id _ d).mp hd
    have hne : d ≠ today := ((List.Nodup.mem_erase_iff hnd).mp hd2).1
    show fileNames (setDir c.repo today g) d = fileNames c.repo d
    simp [fileNames, dirFiles_setDir_ne c.repo g hne]

/-- Witness for C6: replacing the contents of an already existing today
directory (here: emptying it) leaves the locator's frontier result
untouched. -/
theorem c6_witness :
    (processCam (⟨true, true,
        setDir [("2023-05-05", [("20230505-120000_x.jpg", "X")]),
                ("2023-05-04", [("20230504-110000_y.jpg", "Y")])] "2023-05-05" [],
        none, none⟩ : Cam)).1.lastFile
      = (processCam (⟨true, true,
          [("2023-05-05", [("20230505-120000_x.jpg", "X")]),
           ("2023-05-04", [("20230504-110000_y.jpg", "Y")])], none, none⟩ : Cam)).1.lastFile ∧
    (processCam (⟨true, true,
        setDir [("2023-05-05", [("20230505-120000_x.jpg", "X")]),
                ("2023-05-04", [("20230504-110000_y.jpg", "Y")])] "2023-05-05" [],
        none, none⟩ : Cam)).2
      = (processCam (⟨true, true,
          [("2023-05-05", [("20230505-120000_x.jpg", "X")]),
           ("2023-05-04", [("20230504-110000_y.jpg", "Y")])], none, none⟩ : Cam)).2 :=
  c6_gui_today_dir_excluded
    ⟨true, true,
      [("2023-05-05", [("20230505-120000_x.jpg", "X")]),
       ("2023-05-04", [("20230504-110000_y.jpg", "Y")])], none, none⟩
    "2023-05-05" [] rfl rfl (by decide) (by decide) (by decide)

/-- Counterexample for C6 as stated: the command-line script's frontier
loop (update_camera_dir.py, lines 297-306) never skips today's directory;
when today's directory already holds a file copied earlier the same day,
that file is chosen as the frontier. -/
theorem c6_counterexample_cli_uses_today_dir :
    cliFindLastFile
      [("2023-05-05", ["20230505-120000_x.jpg"]),
       ("2023-05-04", ["20230504-110000_y.jpg"])]
      = some ("2023-05-05", "20230505-120000_x.jpg") := by decide

/-- Helper: a false membership test means absence. -/
theorem not_mem_of_memStr_false {k : String} {l : List String}
    (h : memStr k l = false) : k ∉ l :=
  fun hm => by simp [memStr_iff.mpr hm] at h

/-- Helper: writing one directory leaves other directories' file names. -/
theorem fileNames_setDir_ne (repo : Repo) {d d' : String} (v : DirListing)
    (hne : d' ≠ d) : fileNames (setDir repo d v) d' = fileNames repo d' := by
  simp [fileNames, dirFiles_setDir_ne repo v hne]

/-- Helper: creating a fresh directory leaves other directories' listings. -/
theorem dirFiles_append_ne {d t : String} (repo : Repo) (v : DirListing)
    (hne : t ≠ d) : dirFiles (repo ++ [(t, v)]) d = dirFiles repo d := by
  simp [dirFiles, lookupA_append_ne hne repo v]

/-- Helper: creating a fresh directory leaves other directories' file
names. -/
theorem fileNames_append_ne {d t : String} (repo : Repo) (v : DirListing)
    (hne : t ≠ d) : fileNames (repo ++ [(t, v)]) d = fileNames repo d := by
  simp [fileNames, dirFiles_append_ne repo v hne]

/-- Helper: a full-run reduction of `runOnce` when the locator exits
normally with a frontier file assigned. -/
theorem runOnce_eq_of_normal {today : String} {repo : Repo}
    {batch : List MediaRecord} {lf : String}
    (hnorm : (processCam (initCam today repo)).2 = LocExit.normal)
    (hlf : (processCam (initCam today repo)).1.lastFile = some lf) :
    runOnce today repo batch
      = some (setDir (ensureToday repo today) today
          (copy_and_rename lf (dirFiles (ensureToday repo today) today) batch).1) := by
  simp only [runOnce, hnorm, hlf]

/-- Helper: after a run has written only into today's directory (which is
the lexicographic maximum of the dated names), the locator of a fresh
invocation skips today and computes the same frontier as before, again
exiting normally. -/
theorem processCam_after_run (today : String) (repo : Repo) (v : DirListing)
    (hnd : (namesOf repo).Nodup)
    (hle : ∀ d ∈ namesOf repo, strLe d today = true)
    (hnorm : (processCam (initCam today repo)).2 = LocExit.normal) :
    (processCam (initCam today (setDir (ensureToday repo today) today v))).1.lastFile
      = (processCam (initCam today repo)).1.lastFile ∧
    (processCam (initCam today (setDir (ensureToday repo today) today v))).2
      = LocExit.normal := by
  have hmem2 : memStr today (namesOf (setDir (ensureToday repo today) today v)) = true := by
    rw [namesOf_setDir]
    exact memStr_namesOf_ensureToday repo today
  by_cases hm : memStr today (namesOf repo) = true
  · -- today's directory already existed before the run
    have hmm : today ∈ namesOf repo := memStr_iff.mp hm
    have hmax : ∀ d ∈ namesOf repo, d ≠ today → strLt d today = true :=
      fun d hd hne => strLt_of_strLe_of_ne (hle d hd) hne
    have hs := sortDescBy_erase_max (namesOf repo) today hmm hnd hmax
    have hR1 : ensureToday repo today = repo := ensureToday_of_mem hm
    rw [hR1] at hmem2 ⊢
    have hnames : namesOf (setDir repo today v) = namesOf repo :=
      namesOf_setDir today v repo
    have h1 : processCam (initCam today repo)
        = camLoop (initCam today repo) true
            (today :: sortDescBy id ((namesOf repo).erase today)) := by
      simp [processCam, initCam, hs, hm]
    have h2 : processCam (initCam today (setDir repo today v))
        = camLoop (initCam today (setDir repo today v)) true
            (today :: sortDescBy id ((namesOf repo).erase today)) := by
      simp [processCam, initCam, hnames, hs, hm, hmem2]
    rw [h1, h2, camLoop_skip_cons, camLoop_skip_cons]
    have hag := camLoop_agree (sortDescBy id ((namesOf repo).erase today))
      (initCam today (setDir repo today v)) (initCam today repo) false rfl
      (by
        intro e he
        have he2 : e ∈ (namesOf repo).erase today := (mem_sortDescBy id _ e).mp he
        have hne : e ≠ today := ((List.Nodup.mem_erase_iff hnd).mp he2).1
        show fileNames (setDir repo today v) e = fileNames repo e
        exact fileNames_setDir_ne repo v hne)
    refine ⟨hag.1, hag.2.trans ?_⟩
    rw [h1, camLoop_skip_cons] at hnorm
    exact hnorm
  · -- today's directory was created by the run
    have hm2 : memStr today (namesOf repo) = false := by
      cases hmv : memStr today (namesOf repo) with
      | true => exact absurd hmv hm
      | false => rfl
    have hnotmem : today ∉ namesOf repo := not_mem_of_memStr_false hm2
    have hR1 : ensureToday repo today = repo ++ [(today, [])] :=
      ensureToday_of_not_mem hm2
    have hlt : ∀ d ∈ namesOf repo, strLt d today = true :=
      fun d hd => strLt_of_strLe_of_ne (hle d hd) (fun he => hnotmem (he ▸ hd))
    have hsApp : sortDescBy id (namesOf repo ++ [today])
        = today :: sortDescBy id (namesOf repo) :=
      sortDescBy_append_max _ today hlt
    cases hsort : sortDescBy id (namesOf repo) with
    | nil =>
      exfalso
      have : namesOf repo = [] := (sortDescBy_eq_nil_iff id _).mp hsort
      have hrnil : repo = [] := List.map_eq_nil_iff.mp this
      rw [processCam_empty_repo rfl (by simpa [initCam] using hrnil)] at hnorm
      simp at hnorm
    | cons d ds =>
      have hnames2 : namesOf (setDir (ensureToday repo today) today v)
          = namesOf repo ++ [today] := by
        rw [namesOf_setDir, hR1, namesOf_append_dir]
      have h1 : processCam (initCam today repo)
          = camLoop (initCam today repo) false (d :: ds) := by
        simp [processCam, initCam, hsort, hm2]
      have hmemApp : memStr today (namesOf repo ++ [today]) = true :=
        memStr_append_self today (namesOf repo)
      have h2 : processCam (initCam today (setDir (ensureToday repo today) today v))
          = camLoop (initCam today (setDir (ensureToday repo today) today v)) true
              (today :: d :: ds) := by
        simp [processCam, initCam, hnames2, hsApp, hsort, hmemApp]
      rw [h1, h2, camLoop_skip_cons]
      have hag := camLoop_agree (d :: ds)
        (initCam today (setDir (ensureToday repo today) today v))
        (initCam today repo) false rfl
        (by
          intro e he
          have he2 : e ∈ namesOf repo :=
            (mem_sortDescBy id _ e).mp (hsort ▸ he)
          have hne : e ≠ today := fun hq => hnotmem (hq ▸ he2)
          show fileNames (setDir (ensureToday repo today) today v) e
              = fileNames repo e
          rw [fileNames_setDir_ne _ v hne, hR1,
            fileNames_append_ne repo [] (fun hq => hne hq.symm)])
      refine ⟨hag.1, hag.2.trans ?_⟩
      rw [h1] at hnorm
      exact hnorm

/-- C3 (amended): provided the first run's Frontier Locator exits normally
with a frontier file (the archive already had a dated directory with a
conforming file), dated names are unique and none is later than today,
then running the locate-create-copy pipeline a second time against the
archive left by the first run reproduces that archive exactly: every
record is either excluded by the frontier check or skipped as already
present, and nothing is copied or overwritten. -/
theorem c3_second_run_leaves_archive_unchanged (today : String) (repo : Repo)
    (batch : List MediaRecord) (repo1 : Repo)
    (hnd : (namesOf repo).Nodup)
    (hle : ∀ d ∈ namesOf repo, strLe d today = true)
    (hnorm : (processCam (initCam today repo)).2 = LocExit.normal)
    (hrun : runOnce today repo batch = some repo1) :
    runOnce today repo1 batch = some repo1 := by
  cases hlf : (processCam (initCam today repo)).1.lastFile with
  | none => simp [runOnce, hnorm, hlf] at hrun
  | some lf =>
    rw [runOnce_eq_of_normal hnorm hlf] at hrun
    have hrepo1 : repo1
        = setDir (ensureToday repo today) today
            (copy_and_rename lf (dirFiles (ensureToday repo today) today) batch).1 :=
      (Option.some.inj hrun).symm
    obtain ⟨hlf2, hexit2⟩ := processCam_after_run today repo
      (copy_and_rename lf (dirFiles (ensureToday repo today) today) batch).1 hnd hle hnorm
    rw [← hrepo1] at hlf2 hexit2
    rw [hlf] at hlf2
    have hmem1 : memStr today (namesOf repo1) = true := by
      rw [hrepo1, namesOf_setDir]
      exact memStr_namesOf_ensureToday repo today
    have hens : ensureToday repo1 today = repo1 := ensureToday_of_mem hmem1
    have hmemR1 : memStr today (namesOf (ensureToday repo today)) = true :=
      memStr_namesOf_ensureToday repo today
    have hdf : dirFiles repo1 today
        = (copy_and_rename lf (dirFiles (ensureToday repo today) today) batch).1 := by
      rw [hrepo1]
      exact dirFiles_setDir_self _ today _ hmemR1
    have hfix : (copy_and_rename lf (dirFiles repo1 today) batch).1
        = dirFiles repo1 today := by
      rw [hdf]
      apply guiCopyLoop_fixed
      intro r hr hf
      exact guiCopyLoop_dest_isSome hr hf
    rw [runOnce_eq_of_normal hexit2 hlf2, hens, hfix, hrepo1, setDir_setDir,
      dirFiles_setDir_self _ today _ hmemR1]

/-- Witness for C3 at a one-directory archive and a single new record:
running the pipeline again on the produced archive reproduces it. -/
theorem c3_witness :
    runOnce "2023-05-05"
      [("2023-05-04", [("20230504-110000_y.jpg", "Y")]),
       ("2023-05-05", [("20230505-120000_dsc_0001.jpg", "X")])]
      [⟨"H:\\DCIM\\100NIKON\\DSC_0001.JPG", "20230505-120000", "X"⟩]
      = some
        [("2023-05-04", [("20230504-110000_y.jpg", "Y")]),
         ("2023-05-05", [("20230505-120000_dsc_0001.jpg", "X")])] :=
  c3_second_run_leaves_archive_unchanged "2023-05-05"
    [("2023-05-04", [("20230504-110000_y.jpg", "Y")])]
    [⟨"H:\\DCIM\\100NIKON\\DSC_0001.JPG", "20230505-120000", "X"⟩]
    [("2023-05-04", [("20230504-110000_y.jpg", "Y")]),
     ("2023-05-05", [("20230505-120000_dsc_0001.jpg", "X")])]
    (by decide) (by decide) (by decide) (by decide)

/-- Counterexample for C3 as stated: starting from a brand-new archive the
first run copies a file using the sentinel frontier, but a second run finds
only today's (skipped) directory, assigns no frontier file, and fails with
the missing-key error before classifying any record — not the claimed
frontier-exclusion or skip-already-present pass. -/
theorem c3_counterexample_second_run_crashes :
    runOnce "2023-05-05" []
      [⟨"H:\\DCIM\\100NIKON\\DSC_0001.JPG", "20230505-120000", "X"⟩]
      = some [("2023-05-05", [("20230505-120000_dsc_0001.jpg", "X")])] ∧
    runOnce "2023-05-05" [("2023-05-05", [("20230505-120000_dsc_0001.jpg", "X")])]
      [⟨"H:\\DCIM\\100NIKON\\DSC_0001.JPG", "20230505-120000", "X"⟩]
      = none := by
  refine ⟨by decide, by decide⟩

end UpdateCameraDir
